import Mathlib

/-!
Shallow embedding of the slip-parsing core of `src/main.py` (functions
`parse_slip_text`, lines 81-266, and `parse_simple_amount`, lines 268-295).

Modelling conventions:
* Python strings are `List Char` (the API-level functions take `String` and
  use `.data`).  `str.lower()` is modelled for the characters this program
  manipulates (ASCII letters; Thai characters are case-less).
* Python regular expressions are embedded as an explicit AST (`RE`) together
  with a backtracking matcher `mre` that produces the list of all outcomes in
  Python priority order (leftmost alternatives first, greedy quantifiers
  longest-first, lazy ones shortest-first); `re.search` is `research`, which
  scans positions left to right and keeps the first position that matches,
  returning capture group 1 exactly as `match.group(1)` does.  The matcher is
  structurally recursive on a fuel argument; `fuelFor` supplies fuel that is
  always sufficient because no quantifier of these patterns is nested inside
  another quantifier's body, so each quantifier iteration consumes input.
* `float(...)` applied to the numeric candidate strings of this program
  (digits, dots, commas already removed) is `floatParse`, which returns the
  exact decimal value as a canonical pair mantissa / 10 ^ fexp (`PyNum`).
  Every amount candidate has at most two decimal places, so comparison with
  the literal 0.99 agrees with binary floating point.  A failed conversion
  (`ValueError`) is `none`.
* `datetime.strptime` restricted to the 18 format strings of `date_formats`
  is `runFmt`: each `%`-field consumes a maximal digit run (in these formats
  every numeric field is followed by a non-digit, so this matches Python's
  regex-based parser), with Python's value ranges, `%y` century rule and the
  `datetime` constructor's day-of-month validation; the whole string must be
  consumed ("unconverted data remains" otherwise).
* `datetime.now(pytz.timezone('Asia/Bangkok'))` is passed in explicitly as
  the `now : PyDateTime` argument of `parse_slip_text`; it is only consulted
  on the time-only (year 1900) substitution path, mirroring lines 200-211.
-/

set_option maxRecDepth 100000

set_option maxHeartbeats 3200000

/-- Python `\s` (ASCII part, the only whitespace these inputs contain). -/
def pyIsSpace (c : Char) : Bool :=
  c = ' ' || c = '\t' || c = '\n' || c = '\r' || c = '\x0b' || c = '\x0c'

/-- Python `\d` / `str.isdigit` for the scripts relevant here: ASCII digits
and Thai digits U+0E50..U+0E59 (Python's `\d`, `int` and `float` all accept
Unicode decimal digits). -/
def pyIsDigit (c : Char) : Bool :=
  ('0' ≤ c && c ≤ '9') || (0xE50 ≤ c.toNat && c.toNat ≤ 0xE59)

/-- Decimal value of a digit character accepted by `pyIsDigit`. -/
def pyDigitVal (c : Char) : Nat :=
  if '0' ≤ c && c ≤ '9' then c.toNat - '0'.toNat else c.toNat - 0xE50

/-- Python `str.lower()` for ASCII letters; all other characters that occur
in this program's patterns (digits, punctuation, Thai) are case-less. -/
def pyLowerChar (c : Char) : Char :=
  if 'A' ≤ c && c ≤ 'Z' then Char.ofNat (c.toNat + 32) else c

/-- Python `str.strip()` (whitespace from both ends). -/
def pyStrip (s : List Char) : List Char :=
  ((s.dropWhile pyIsSpace).reverse.dropWhile pyIsSpace).reverse

/-- Value of a digit string, most significant first (Python `int`). -/
def digitsToNat (ds : List Char) : Nat :=
  ds.foldl (fun n c => 10 * n + pyDigitVal c) 0

def natDigitsAux : Nat → Nat → List Char → List Char
  | 0, _, acc => acc
  | _ + 1, 0, acc => acc
  | fuel + 1, n + 1, acc =>
      natDigitsAux fuel ((n + 1) / 10) (Char.ofNat (48 + (n + 1) % 10) :: acc)

/-- Python `str(n)` for a natural number. -/
def natDigits (n : Nat) : List Char :=
  if n = 0 then ['0'] else natDigitsAux (n + 1) n []

/-- Bool test that `p` is a prefix of `s`. -/
def listStartsWith : List Char → List Char → Bool
  | [], _ => true
  | _ :: _, [] => false
  | p :: ps, c :: cs => p = c && listStartsWith ps cs

/-- Case-insensitive variant (Python `re.IGNORECASE` on a literal). -/
def ciStartsWith : List Char → List Char → Bool
  | [], _ => true
  | _ :: _, [] => false
  | p :: ps, c :: cs => pyLowerChar p = pyLowerChar c && ciStartsWith ps cs

def pyReplaceF : Nat → List Char → List Char → List Char → List Char
  | 0, s, _, _ => s
  | fuel + 1, s, old, new =>
      match s with
      | [] => []
      | c :: t =>
          if old ≠ [] && listStartsWith old (c :: t) then
            new ++ pyReplaceF fuel ((c :: t).drop old.length) old new
          else
            c :: pyReplaceF fuel t old new

/-- Python `s.replace(old, new)`: every non-overlapping occurrence, left to
right.  (`old` is never empty at the call sites of this program.) -/
def pyReplace (s old new : List Char) : List Char :=
  pyReplaceF (s.length + 1) s old new

def pySubCIF : Nat → List Char → List Char → List Char → List Char
  | 0, s, _, _ => s
  | fuel + 1, s, old, new =>
      match s with
      | [] => []
      | c :: t =>
          if old ≠ [] && ciStartsWith old (c :: t) then
            new ++ pySubCIF fuel ((c :: t).drop old.length) old new
          else
            c :: pySubCIF fuel t old new

/-- Python `re.sub(re.escape(old), new, s, flags=re.IGNORECASE)`: literal
replacement of every non-overlapping occurrence, case-insensitively. -/
def pySubCI (s old new : List Char) : List Char :=
  pySubCIF (s.length + 1) s old new

/-- Python `str.split(sep)` for a one-character separator. -/
def splitOnChar (sep : Char) : List Char → List (List Char)
  | [] => [[]]
  | x :: t =>
      let r := splitOnChar sep t
      if x = sep then [] :: r
      else
        match r with
        | h :: r2 => (x :: h) :: r2
        | [] => [[x]]

/-- Exact nonnegative decimal value `mant / 10 ^ fexp`, kept canonical (the
fractional part never ends in a zero digit), so that two decimal literals
denote the same Python float value iff their `PyNum`s are equal. -/
structure PyNum where
  mant : Nat
  fexp : Nat
deriving DecidableEq, Repr

/-- Comparison of the represented values (`a < b`). -/
def pyNumLt (a b : PyNum) : Bool :=
  a.mant * 10 ^ b.fexp < b.mant * 10 ^ a.fexp

/-- Python `float(s)` on the numeric candidate strings of this program:
optional-digits, optionally one dot, digits; everything else raises
`ValueError` (modelled as `none`).  The value is returned canonically. -/
def floatParse (s : List Char) : Option PyNum :=
  match splitOnChar '.' s with
  | [ip] =>
      if ip ≠ [] && ip.all pyIsDigit then some (PyNum.mk (digitsToNat ip) 0) else none
  | [ip, fp] =>
      if (ip ≠ [] || fp ≠ []) && ip.all pyIsDigit && fp.all pyIsDigit then
        let fp2 := (fp.reverse.dropWhile (fun c => pyDigitVal c = 0)).reverse
        some (PyNum.mk (digitsToNat ip * 10 ^ fp2.length + digitsToNat fp2) fp2.length)
      else none
  | _ => none

/-- First element of a list of candidates that maps to `some`; this is the
shape of every "try the patterns in order, keep the first acceptable hit"
loop in `parse_slip_text`. -/
def firstSome {α β : Type} : List α → (α → Option β) → Option β
  | [], _ => none
  | x :: t, f =>
      match f x with
      | some b => some b
      | none => firstSome t f

/-- Regular-expression AST covering the constructs used by `src/main.py`:
character classes (also encoding case-insensitive literals), concatenation,
ordered alternation, one capture group, greedy/lazy star, and the `$`
anchor.  Bounded repetitions are expanded at pattern-construction time. -/
inductive RE where
  | eps : RE
  | eol : RE
  | cls : (Char → Bool) → RE
  | seq : RE → RE → RE
  | alt : RE → RE → RE
  | grp : RE → RE
  | star : Bool → RE → RE

/-- Backtracking matcher.  `mre fuel r s` is the list of `(rest, group1)`
outcomes of matching `r` at the start of `s`, in Python's backtracking
priority order.  Structural recursion on `fuel`; every call site supplies
enough fuel (see `fuelFor`).  A `star` iteration whose body consumed nothing
stops the repetition, as in Python. -/
def mre : Nat → RE → List Char → List (List Char × Option (List Char))
  | 0, _, _ => []
  | fuel + 1, re, s =>
      match re with
      | RE.eps => [(s, none)]
      | RE.eol => if s.isEmpty then [(s, none)] else []
      | RE.cls f =>
          match s with
          | [] => []
          | c :: t => if f c then [(t, none)] else []
      | RE.seq a b =>
          (mre fuel a s).flatMap fun x =>
            (mre fuel b x.1).map fun y => (y.1, x.2.orElse fun _ => y.2)
      | RE.alt a b => mre fuel a s ++ mre fuel b s
      | RE.grp r =>
          (mre fuel r s).map fun x => (x.1, some (s.take (s.length - x.1.length)))
      | RE.star lz r =>
          let step :=
            ((mre fuel r s).filter fun x => x.1.length < s.length).flatMap fun x =>
              (mre fuel (RE.star lz r) x.1).map fun y => (y.1, x.2.orElse fun _ => y.2)
          if lz then (s, none) :: step else step ++ [(s, none)]

/-- Structural size of a pattern, used to bound the matcher's fuel. -/
def reDepth : RE → Nat
  | RE.eps => 1
  | RE.eol => 1
  | RE.cls _ => 1
  | RE.seq a b => 1 + reDepth a + reDepth b
  | RE.alt a b => 1 + reDepth a + reDepth b
  | RE.grp r => 1 + reDepth r
  | RE.star _ r => 1 + reDepth r

/-- Fuel that is always sufficient for `mre` on this program's patterns. -/
def fuelFor (p : RE) (s : List Char) : Nat :=
  (reDepth p + 1) * (s.length + 2)

/-- Highest-priority match of `p` at the current position (Python's regex
engine anchored at one position). -/
def mfirst (p : RE) (s : List Char) : Option (List Char × Option (List Char)) :=
  (mre (fuelFor p s) p s).head?

/-- Python `re.search(p, s)` followed by `.group(1)`: scan positions left to
right, take the first position where the pattern matches, and return capture
group 1 of the highest-priority match there.  (Every pattern of this program
traverses its single group on every successful match.) -/
def research (p : RE) : List Char → Option (List Char)
  | [] =>
      match mfirst p [] with
      | some x => some (x.2.getD [])
      | none => none
  | c :: t =>
      match mfirst p (c :: t) with
      | some x => some (x.2.getD [])
      | none => research p t

/-- Anchored match (`^...` patterns, which Python only tries at position 0). -/
def manchored (p : RE) (s : List Char) : Option (List Char) :=
  match mfirst p s with
  | some x => some (x.2.getD [])
  | none => none

/-- Literal character; `ci` mirrors `re.IGNORECASE`. -/
def reLit (ci : Bool) (c : Char) : RE :=
  RE.cls fun x => if ci then pyLowerChar x = pyLowerChar c else x = c

/-- Literal string. -/
def reStr (ci : Bool) (s : String) : RE :=
  s.data.foldr (fun c r => RE.seq (reLit ci c) r) RE.eps

/-- Ordered alternation of a list of patterns. -/
def reAlts : List RE → RE
  | [] => RE.cls fun _ => false
  | [r] => r
  | r :: rs => RE.alt r (reAlts rs)

/-- Concatenation of a list of patterns. -/
def reCat : List RE → RE
  | [] => RE.eps
  | [r] => r
  | r :: rs => RE.seq r (reCat rs)

/-- Greedy `r?`. -/
def reOpt (r : RE) : RE := RE.alt r RE.eps

/-- Exactly `n` copies of `r`. -/
def reTimes : Nat → RE → RE
  | 0, _ => RE.eps
  | n + 1, r => RE.seq r (reTimes n r)

/-- Greedy `r{0,n}`. -/
def reUpTo : Nat → RE → RE
  | 0, _ => RE.eps
  | n + 1, r => RE.alt (RE.seq r (reUpTo n r)) RE.eps

/-- Greedy `r{m,n}`. -/
def reRep (m n : Nat) (r : RE) : RE :=
  RE.seq (reTimes m r) (reUpTo (n - m) r)

/-- Greedy `r+`. -/
def rePlus (r : RE) : RE := RE.seq r (RE.star false r)

def clsDigit : RE := RE.cls pyIsDigit

def clsNonDigit : RE := RE.cls fun c => !pyIsDigit c

def clsWs : RE := RE.cls pyIsSpace

def clsNonWs : RE := RE.cls fun c => !pyIsSpace c

/-- The class `[.,]`. -/
def clsSep : RE := RE.cls fun c => c = '.' || c = ','

/-- The class matching a dash or a slash. -/
def clsDash : RE := RE.cls fun c => c = '-' || c = '/'

/-- The class `[A-Z0-9]` under `re.IGNORECASE`. -/
def clsAlnum : RE :=
  RE.cls fun c => ('A' ≤ c && c ≤ 'Z') || ('a' ≤ c && c ≤ 'z') || ('0' ≤ c && c ≤ '9')

/-- The class `[a-z]` under `re.IGNORECASE` (line 152/153 of the source). -/
def clsAlpha : RE :=
  RE.cls fun c => ('a' ≤ c && c ≤ 'z') || ('A' ≤ c && c ≤ 'Z')

/-- `\s+`. -/
def wsPlus : RE := rePlus clsWs

/-- The decimal-number shape `\d{1,3}(?:[.,]\d{3})*(?:[.,]\d{1,2})?` shared
by the keyword amount patterns (lines 91-92) and by `parse_simple_amount`
(line 270). -/
def decimalNumberShape : RE :=
  reCat [reRep 1 3 clsDigit,
         RE.star false (RE.seq clsSep (reTimes 3 clsDigit)),
         reOpt (RE.seq clsSep (reRep 1 2 clsDigit))]

/-- Line 91: keyword, then a lazy non-digit gap, then the captured number. -/
def amountKwPat1 : RE :=
  reCat [reAlts (["total", "amount", "รวม", "ยอด", "ชำระ", "เป็นเงิน"].map (reStr true)),
         RE.star true clsNonDigit,
         RE.grp decimalNumberShape]

/-- Line 92: captured number, lazy non-digit gap, then currency/keyword. -/
def amountKwPat2 : RE :=
  reCat [RE.grp decimalNumberShape,
         RE.star true clsNonDigit,
         reAlts (["บาท", "baht", "thb", "total", "amount", "รวม", "ยอด", "ชำระ", "เป็นเงิน"].map (reStr true))]

def amount_keywords_patterns : List RE := [amountKwPat1, amountKwPat2]

/-- Line 114: `(\d{1,3}(?:,\d{3})*(?:\.\d{2}))`. -/
def fbPat1 : RE :=
  RE.grp (reCat [reRep 1 3 clsDigit,
                 RE.star false (RE.seq (reLit false ',') (reTimes 3 clsDigit)),
                 reLit false '.', reTimes 2 clsDigit])

/-- Line 115: `(\d+\.\d{2})`. -/
def fbPat2 : RE :=
  RE.grp (reCat [rePlus clsDigit, reLit false '.', reTimes 2 clsDigit])

/-- Line 116: `(\d{1,3}(?:,\d{3})*)`. -/
def fbPat3 : RE :=
  RE.grp (RE.seq (reRep 1 3 clsDigit)
                 (RE.star false (RE.seq (reLit false ',') (reTimes 3 clsDigit))))

/-- Line 117: `(\d+)`. -/
def fbPat4 : RE := RE.grp (rePlus clsDigit)

def amount_patterns : List RE := [fbPat1, fbPat2, fbPat3, fbPat4]

/-- Lines 100-102: `replace(',','')` then the no-op dot shuffle, then, when
more than one dot remains, remove every dot ("assume it's a thousand
separator"). -/
def kwNumNormalize (g : List Char) : List Char :=
  let n := g.filter fun c => c ≠ ','
  if 1 < (n.filter fun c => c = '.').length then n.filter (fun c => c ≠ '.') else n

/-- One iteration of the loop on lines 95-110: match, normalize, convert,
accept only a value above the 0.99 noise threshold. -/
def kwCandidate (lt : List Char) (p : RE) : Option PyNum :=
  match research p lt with
  | some g =>
      match floatParse (kwNumNormalize g) with
      | some v => if pyNumLt (PyNum.mk 99 2) v then some v else none
      | none => none
  | none => none

/-- Lines 95-110: the keyword-anchored amount tier. -/
def keywordAmount (lt : List Char) : Option PyNum :=
  firstSome amount_keywords_patterns (kwCandidate lt)

/-- One iteration of the loop on lines 119-130 (commas stripped only). -/
def fbCandidate (lt : List Char) (p : RE) : Option PyNum :=
  match research p lt with
  | some g =>
      match floatParse (g.filter fun c => c ≠ ',') with
      | some v => if pyNumLt (PyNum.mk 99 2) v then some v else none
      | none => none
  | none => none

/-- Lines 112-130: the bare-number fallback tier. -/
def fallbackAmount (lt : List Char) : Option PyNum :=
  firstSome amount_patterns (fbCandidate lt)

/-- The amount field: fallback tier only when the keyword tier accepted
nothing (line 112). -/
def amountOf (lt : List Char) : Option PyNum :=
  match keywordAmount lt with
  | some v => some v
  | none => fallbackAmount lt

/-- Lines 133-140, in source (dict insertion) order. -/
def thai_month_map : List (String × String) :=
  [("ม.ค.", "Jan"), ("ก.พ.", "Feb"), ("มี.ค.", "Mar"), ("เม.ย.", "Apr"),
   ("พ.ค.", "May"), ("มิ.ย.", "Jun"), ("ก.ค.", "Jul"), ("ส.ค.", "Aug"),
   ("ก.ย.", "Sep"), ("ต.ค.", "Oct"), ("พ.ย.", "Nov"), ("ธ.ค.", "Dec"),
   ("มกราคม", "January"), ("กุมภาพันธ์", "February"), ("มีนาคม", "March"), ("เมษายน", "April"),
   ("พฤษภาคม", "May"), ("มิถุนายน", "June"), ("กรกฎาคม", "July"), ("สิงหาคม", "August"),
   ("กันยายน", "September"), ("ตุลาคม", "October"), ("พฤศจิกายน", "November"), ("ธันวาคม", "December")]

/-- Lines 142-144: sequential case-insensitive literal replacement of every
Thai month token. -/
def processed_text_for_date (text : List Char) : List Char :=
  thai_month_map.foldl (fun t pr => pySubCI t pr.1.data pr.2.data) text

def d2 : RE := reTimes 2 clsDigit

def d4 : RE := reTimes 4 clsDigit

def colon : RE := reLit false ':'

/-- `(?:Jan|Feb|...|Dec)[a-z]*` with `re.IGNORECASE`. -/
def monthAbbrevRe : RE :=
  RE.seq (reAlts (["Jan", "Feb", "Mar", "Apr", "May", "Jun", "Jul", "Aug", "Sep", "Oct", "Nov", "Dec"].map (reStr true)))
         (RE.star false clsAlpha)

/-- Lines 147-160, in source order; each pattern captures its whole match. -/
def datetime_patterns : List RE :=
  [RE.grp (reCat [d2, clsDash, d2, clsDash, d4, wsPlus, d2, colon, d2, colon, d2]),
   RE.grp (reCat [d2, clsDash, d2, clsDash, d4, wsPlus, d2, colon, d2]),
   RE.grp (reCat [d2, clsDash, d2, clsDash, d2, wsPlus, d2, colon, d2, colon, d2]),
   RE.grp (reCat [d2, clsDash, d2, clsDash, d2, wsPlus, d2, colon, d2]),
   RE.grp (reCat [reRep 1 2 clsDigit, wsPlus, monthAbbrevRe, wsPlus, d4, wsPlus, d2, colon, d2]),
   RE.grp (reCat [reRep 1 2 clsDigit, wsPlus, monthAbbrevRe, wsPlus, d2, wsPlus, d2, colon, d2]),
   RE.grp (reCat [d4, clsDash, d2, clsDash, d2, wsPlus, d2, colon, d2, colon, d2]),
   RE.grp (reCat [d4, clsDash, d2, clsDash, d2, wsPlus, d2, colon, d2]),
   RE.grp (reCat [d2, clsDash, d2, clsDash, d4]),
   RE.grp (reCat [d2, clsDash, d2, clsDash, d2]),
   RE.grp (reCat [d2, colon, d2, colon, d2]),
   RE.grp (reCat [d2, colon, d2])]

/-- One field of a `strptime` format string. -/
inductive FTok where
  | lit : Char → FTok
  | ws : FTok
  | D : FTok
  | Mo : FTok
  | Y4 : FTok
  | Y2 : FTok
  | H : FTok
  | Mi : FTok
  | S : FTok
  | B : FTok
deriving DecidableEq

/-- Lines 163-173, in source order. -/
def date_formats : List (List FTok) :=
  [[FTok.D, FTok.lit '-', FTok.Mo, FTok.lit '-', FTok.Y4, FTok.ws, FTok.H, FTok.lit ':', FTok.Mi, FTok.lit ':', FTok.S],
   [FTok.D, FTok.lit '/', FTok.Mo, FTok.lit '/', FTok.Y4, FTok.ws, FTok.H, FTok.lit ':', FTok.Mi, FTok.lit ':', FTok.S],
   [FTok.D, FTok.lit '-', FTok.Mo, FTok.lit '-', FTok.Y4, FTok.ws, FTok.H, FTok.lit ':', FTok.Mi],
   [FTok.D, FTok.lit '/', FTok.Mo, FTok.lit '/', FTok.Y4, FTok.ws, FTok.H, FTok.lit ':', FTok.Mi],
   [FTok.D, FTok.lit '-', FTok.Mo, FTok.lit '-', FTok.Y2, FTok.ws, FTok.H, FTok.lit ':', FTok.Mi, FTok.lit ':', FTok.S],
   [FTok.D, FTok.lit '/', FTok.Mo, FTok.lit '/', FTok.Y2, FTok.ws, FTok.H, FTok.lit ':', FTok.Mi, FTok.lit ':', FTok.S],
   [FTok.D, FTok.lit '/', FTok.Mo, FTok.lit '/', FTok.Y2, FTok.ws, FTok.H, FTok.lit ':', FTok.Mi],
   [FTok.D, FTok.lit '-', FTok.Mo, FTok.lit '-', FTok.Y2, FTok.ws, FTok.H, FTok.lit ':', FTok.Mi],
   [FTok.D, FTok.ws, FTok.B, FTok.ws, FTok.Y4, FTok.ws, FTok.H, FTok.lit ':', FTok.Mi],
   [FTok.D, FTok.ws, FTok.B, FTok.ws, FTok.Y2, FTok.ws, FTok.H, FTok.lit ':', FTok.Mi],
   [FTok.Y4, FTok.lit '-', FTok.Mo, FTok.lit '-', FTok.D, FTok.ws, FTok.H, FTok.lit ':', FTok.Mi, FTok.lit ':', FTok.S],
   [FTok.Y4, FTok.lit '-', FTok.Mo, FTok.lit '-', FTok.D, FTok.ws, FTok.H, FTok.lit ':', FTok.Mi],
   [FTok.D, FTok.lit '-', FTok.Mo, FTok.lit '-', FTok.Y4],
   [FTok.D, FTok.lit '/', FTok.Mo, FTok.lit '/', FTok.Y4],
   [FTok.D, FTok.lit '-', FTok.Mo, FTok.lit '-', FTok.Y2],
   [FTok.D, FTok.lit '/', FTok.Mo, FTok.lit '/', FTok.Y2],
   [FTok.H, FTok.lit ':', FTok.Mi, FTok.lit ':', FTok.S],
   [FTok.H, FTok.lit ':', FTok.Mi]]

/-- Naive `datetime` value (second precision, no zone). -/
structure PyDateTime where
  year : Nat
  month : Nat
  day : Nat
  hour : Nat
  minute : Nat
  second : Nat
deriving DecidableEq, Repr

def isLeap (y : Nat) : Bool :=
  (y % 4 = 0 && y % 100 ≠ 0) || y % 400 = 0

def daysInMonth (y m : Nat) : Nat :=
  if m = 2 then (if isLeap y then 29 else 28)
  else if m = 4 || m = 6 || m = 9 || m = 11 then 30 else 31

/-- Month number of a lower-cased three-letter abbreviation (`%b`). -/
def monthFromAbbrev (cs : List Char) : Option Nat :=
  if cs = "jan".data then some 1 else if cs = "feb".data then some 2
  else if cs = "mar".data then some 3 else if cs = "apr".data then some 4
  else if cs = "may".data then some 5 else if cs = "jun".data then some 6
  else if cs = "jul".data then some 7 else if cs = "aug".data then some 8
  else if cs = "sep".data then some 9 else if cs = "oct".data then some 10
  else if cs = "nov".data then some 11 else if cs = "dec".data then some 12
  else none

def runFmtAux : List FTok → List Char → PyDateTime → Option PyDateTime
  | [], s, acc =>
      if s.isEmpty then
        if acc.day ≤ daysInMonth acc.year acc.month then some acc else none
      else none
  | FTok.lit c :: rest, s, acc =>
      match s with
      | [] => none
      | x :: t => if x = c then runFmtAux rest t acc else none
  | FTok.ws :: rest, s, acc =>
      let t := s.dropWhile pyIsSpace
      if t.length < s.length then runFmtAux rest t acc else none
  | FTok.D :: rest, s, acc =>
      let run := s.takeWhile pyIsDigit
      let v := digitsToNat run
      if 1 ≤ run.length && run.length ≤ 2 && 1 ≤ v && v ≤ 31 then
        runFmtAux rest (s.dropWhile pyIsDigit) (PyDateTime.mk acc.year acc.month v acc.hour acc.minute acc.second)
      else none
  | FTok.Mo :: rest, s, acc =>
      let run := s.takeWhile pyIsDigit
      let v := digitsToNat run
      if 1 ≤ run.length && run.length ≤ 2 && 1 ≤ v && v ≤ 12 then
        runFmtAux rest (s.dropWhile pyIsDigit) (PyDateTime.mk acc.year v acc.day acc.hour acc.minute acc.second)
      else none
  | FTok.Y4 :: rest, s, acc =>
      let run := s.takeWhile pyIsDigit
      let v := digitsToNat run
      if run.length = 4 && 1 ≤ v then
        runFmtAux rest (s.dropWhile pyIsDigit) (PyDateTime.mk v acc.month acc.day acc.hour acc.minute acc.second)
      else none
  | FTok.Y2 :: rest, s, acc =>
      let run := s.takeWhile pyIsDigit
      let v := digitsToNat run
      if run.length = 2 then
        runFmtAux rest (s.dropWhile pyIsDigit)
          (PyDateTime.mk (if v ≤ 68 then 2000 + v else 1900 + v) acc.month acc.day acc.hour acc.minute acc.second)
      else none
  | FTok.H :: rest, s, acc =>
      let run := s.takeWhile pyIsDigit
      let v := digitsToNat run
      if 1 ≤ run.length && run.length ≤ 2 && v ≤ 23 then
        runFmtAux rest (s.dropWhile pyIsDigit) (PyDateTime.mk acc.year acc.month acc.day v acc.minute acc.second)
      else none
  | FTok.Mi :: rest, s, acc =>
      let run := s.takeWhile pyIsDigit
      let v := digitsToNat run
      if 1 ≤ run.length && run.length ≤ 2 && v ≤ 59 then
        runFmtAux rest (s.dropWhile pyIsDigit) (PyDateTime.mk acc.year acc.month acc.day acc.hour v acc.second)
      else none
  | FTok.S :: rest, s, acc =>
      let run := s.takeWhile pyIsDigit
      let v := digitsToNat run
      if 1 ≤ run.length && run.length ≤ 2 && v ≤ 59 then
        runFmtAux rest (s.dropWhile pyIsDigit) (PyDateTime.mk acc.year acc.month acc.day acc.hour acc.minute v)
      else none
  | FTok.B :: rest, s, acc =>
      match monthFromAbbrev ((s.take 3).map pyLowerChar) with
      | some m => runFmtAux rest (s.drop 3) (PyDateTime.mk acc.year m acc.day acc.hour acc.minute acc.second)
      | none => none

/-- `datetime.strptime(s, fmt)` for the formats of `date_formats`: full-string
match starting from the defaults 1900-01-01 00:00:00, `none` on `ValueError`. -/
def runFmt (fmt : List FTok) (s : List Char) : Option PyDateTime :=
  runFmtAux fmt s (PyDateTime.mk 1900 1 1 0 0 0)

/-- Leftmost `re.search(r'\d{4}', s)`: first four consecutive digits. -/
def first4DigitRun : List Char → Option (List Char)
  | [] => none
  | c :: t =>
      if pyIsDigit c && (t.take 3).length = 3 && (t.take 3).all pyIsDigit then
        some (c :: t.take 3)
      else first4DigitRun t

/-- Lines 180-198: one format attempt on a matched date string, including the
Buddhist-era conversion applied to a local copy when the format has `%Y` and
the first 4-digit run exceeds 2500 (a failure of the converted parse skips
the plain parse for that format, as the exception does in Python). -/
def tryFmt (dateStr : List Char) (fmt : List FTok) : Option PyDateTime :=
  if fmt.contains FTok.Y4 then
    match first4DigitRun dateStr with
    | some y4 =>
        if 2500 < digitsToNat y4 then
          runFmt fmt (pyReplace dateStr y4 (natDigits (digitsToNat y4 - 543)))
        else runFmt fmt dateStr
    | none => runFmt fmt dateStr
  else runFmt fmt dateStr

/-- Lines 176-198: first pattern whose match parses under some format. -/
def datetime_core (text : List Char) : Option PyDateTime :=
  firstSome datetime_patterns fun p =>
    match research p (processed_text_for_date text) with
    | some g => firstSome date_formats fun fmt => tryFmt g fmt
    | none => none

/-- Lines 199-214: the date/time field, substituting today's Bangkok date for
the 1900-01-01 default of a time-only parse. -/
def datetime_of (now : PyDateTime) (text : List Char) : Option PyDateTime :=
  match datetime_core text with
  | some dt =>
      if dt.year = 1900 && dt.month = 1 && dt.day = 1 then
        some (PyDateTime.mk now.year now.month now.day dt.hour dt.minute dt.second)
      else some dt
  | none => none

/-- Lines 217-222, in source order. -/
def ref_patterns : List RE :=
  [RE.seq (reAlts (["Ref", "Reference", "เลขที่อ้างอิง", "Ref No.", "TRAN ID:", "TRN ID:", "Trx Ref:", "TRN", "Txn", "Transaction No.", "หมายเลขอ้างอิง", "รหัสอ้างอิง", "รหัสรายการ", "หมายเลขรายการ", "เลขที่อ้างอิงรายการ"].map
             fun k => RE.seq (reStr true k) (RE.star false clsWs)))
          (RE.grp (reRep 8 40 clsNonWs)),
   RE.grp (reRep 10 30 clsDigit),
   reCat [reAlts (["R", "TID", "Tran ID", "Ref"].map fun k => RE.seq (reStr true k) (RE.star false clsWs)),
          RE.star false clsWs,
          RE.grp (reRep 6 25 clsDigit)],
   RE.grp (reRep 8 40 clsAlnum)]

/-- Lines 229-244: the "is this candidate really a date/time?" check.  The
slash-to-dash copy (the space-to-space replace is the identity) is threaded
through the format loop because the Buddhist-era conversion on line 238
reassigns `temp_dt_str` persistently. -/
def refIsDateTime (r : List Char) : Bool :=
  (date_formats.foldl
    (fun st fmt =>
      if st.2 then st
      else
        let t1 :=
          if fmt.contains FTok.Y4 then
            match first4DigitRun st.1 with
            | some y4 =>
                if 2500 < digitsToNat y4 then
                  pyReplace st.1 y4 (natDigits (digitsToNat y4 - 543))
                else st.1
            | none => st.1
          else st.1
        match runFmt fmt t1 with
        | some _ => (t1, true)
        | none => (t1, false))
    (r.map fun c => if c = '/' then '-' else c, false)).2

/-- Line 270 of `parse_simple_amount`:
`^\s*(\d{1,3}(?:[.,]\d{3})*(?:[.,]\d{1,2})?)\s*(?:บาท|baht|thb|$)`. -/
def spRe1 : RE :=
  reCat [RE.star false clsWs,
         RE.grp decimalNumberShape,
         RE.star false clsWs,
         reAlts [reStr true "บาท", reStr true "baht", reStr true "thb", RE.eol]]

/-- Line 286 of `parse_simple_amount`: `^\s*(\d+(?:\.\d+)?)\s*$`. -/
def spRe2 : RE :=
  reCat [RE.star false clsWs,
         RE.grp (RE.seq (rePlus clsDigit) (reOpt (RE.seq (reLit false '.') (rePlus clsDigit)))),
         RE.star false clsWs,
         RE.eol]

/-- Lines 274-277: keep only the last dot as the decimal point. -/
def fixMultiDot (n : List Char) : List Char :=
  match (splitOnChar '.' n).reverse with
  | [] => n
  | last :: revInit => (revInit.reverse).foldr (fun a b => a ++ b) [] ++ '.' :: last

/-- Lines 285-293: the whole-string bare-number fallback. -/
def spFallback (t : List Char) : Option PyNum :=
  match manchored spRe2 t with
  | some g =>
      match floatParse g with
      | some v => if 0 < v.mant then some v else none
      | none => none
  | none => none

/-- Lines 268-295: `parse_simple_amount`.  A value of 0 from the first
pattern falls through to the fallback; a `ValueError` returns `None`. -/
def parse_simple_amount (s : List Char) : Option PyNum :=
  let t := pyStrip s
  match manchored spRe1 t with
  | some g =>
      let n0 := g.filter fun c => c ≠ ','
      let num := if 1 < (splitOnChar '.' n0).length - 1 then fixMultiDot n0 else n0
      match floatParse num with
      | some v => if 0 < v.mant then some v else spFallback t
      | none => none
  | none => spFallback t

/-- Lines 223-260: one reference pattern's candidate, run through the
date/time and amount rejection checks. -/
def refCandidate (lt : List Char) (p : RE) : Option (List Char) :=
  match research p lt with
  | some g =>
      let r := pyStrip g
      if refIsDateTime r then none
      else if (parse_simple_amount r).isSome then none
      else some r
  | none => none

/-- The reference-number field: first pattern whose candidate survives. -/
def refOf (lt : List Char) : Option (List Char) :=
  firstSome ref_patterns (refCandidate lt)

/-- The record returned by `parse_slip_text` (line 262). -/
structure ParsedSlip where
  amount : Option PyNum
  date_time : Option PyDateTime
  reference_no : Option String
deriving DecidableEq, Repr

/-- Lines 81-266: `parse_slip_text`.  `now` is the ambient
`datetime.now(pytz.timezone('Asia/Bangkok'))` of lines 203-204. -/
def parse_slip_text (now : PyDateTime) (text : String) : ParsedSlip :=
  let lower_text := text.data.map pyLowerChar
  ParsedSlip.mk (amountOf lower_text)
                (datetime_of now text.data)
                ((refOf lower_text).map fun r => String.mk r)

/-- `a` occurs as a contiguous segment of `b`. -/
def SubSeg (a b : List Char) : Prop :=
  ∃ u v, b = u ++ a ++ v

/-- `a` is a suffix of `b`. -/
def SufSeg (a b : List Char) : Prop :=
  ∃ u, b = u ++ a

/-- The first maximal run of consecutive digits of `s` (empty when `s` has no
digit). -/
def firstDigitRun (s : List Char) : List Char :=
  (s.dropWhile fun c => !pyIsDigit c).takeWhile pyIsDigit

/-- A sample Bangkok clock reading used to instantiate `now` in concrete
evaluations. -/
def sampleNow : PyDateTime := PyDateTime.mk 2025 1 15 12 0 0

/-- A second, different clock reading (next day). -/
def sampleNowB : PyDateTime := PyDateTime.mk 2025 1 16 12 0 0

/-! Generic lemmas about the first-acceptable-candidate loop. -/

theorem firstSome_eq_some {α β : Type} {xs : List α} {f : α → Option β} {b : β}
    (h : firstSome xs f = some b) : ∃ x ∈ xs, f x = some b := by
  induction xs with
  | nil => simp [firstSome] at h
  | cons x t ih =>
      cases hx : f x with
      | some c =>
          rw [firstSome, hx] at h
          simp at h
          exact ⟨x, List.mem_cons_self x t, by rw [hx, h]⟩
      | none =>
          rw [firstSome, hx] at h
          simp at h
          obtain ⟨y, hy, hfy⟩ := ih h
          exact ⟨y, List.mem_cons_of_mem x hy, hfy⟩

theorem firstSome_isSome {α β : Type} {xs : List α} {f : α → Option β} {x : α}
    (hx : x ∈ xs) (hfx : (f x).isSome = true) : (firstSome xs f).isSome = true := by
  induction xs with
  | nil => cases hx
  | cons y t ih =>
      rw [firstSome]
      cases hy : f y with
      | some c => simp
      | none =>
          rcases List.mem_cons.mp hx with h1 | h1
          · subst h1; rw [hy] at hfx; simp at hfx
          · exact ih h1

/-! Segment algebra. -/

theorem sufSegRefl (s : List Char) : SufSeg s s := ⟨[], rfl⟩

theorem sufSegTrans {a b c : List Char} (h1 : SufSeg a b) (h2 : SufSeg b c) : SufSeg a c := by
  obtain ⟨u, hu⟩ := h1
  obtain ⟨v, hv⟩ := h2
  exact ⟨v ++ u, by rw [hv, hu, List.append_assoc]⟩

theorem sufSegTail {c : Char} {t : List Char} : SufSeg t (c :: t) := ⟨[c], rfl⟩

theorem subSegNil (s : List Char) : SubSeg [] s := ⟨[], s, by simp⟩

theorem subSegOfTake (s : List Char) (n : Nat) : SubSeg (s.take n) s :=
  ⟨[], s.drop n, by simp⟩

theorem subSegOfSuf {a b : List Char} (h : SufSeg a b) : SubSeg a b := by
  obtain ⟨u, hu⟩ := h
  exact ⟨u, [], by simp [hu]⟩

theorem subSegTransSuf {g b s : List Char} (h1 : SubSeg g b) (h2 : SufSeg b s) : SubSeg g s := by
  obtain ⟨u, v, huv⟩ := h1
  obtain ⟨w, hw⟩ := h2
  exact ⟨w ++ u, v, by rw [hw, huv]; simp [List.append_assoc]⟩

theorem subSegTrans {a b c : List Char} (h1 : SubSeg a b) (h2 : SubSeg b c) : SubSeg a c := by
  obtain ⟨u, v, huv⟩ := h1
  obtain ⟨w, z, hwz⟩ := h2
  exact ⟨w ++ u, v ++ z, by rw [hwz, huv]; simp [List.append_assoc]⟩

theorem subSegConsHead {g : List Char} {c : Char} {t : List Char}
    (h : SubSeg g t) : SubSeg g (c :: t) := by
  obtain ⟨u, v, huv⟩ := h
  exact ⟨c :: u, v, by simp [huv]⟩

theorem headq_mem {α : Type} {l : List α} {x : α} (h : l.head? = some x) : x ∈ l := by
  cases l with
  | nil => simp at h
  | cons a t =>
      simp only [List.head?] at h
      injection h with h
      rw [← h]
      exact List.mem_cons_self a t

/-! Soundness of the matcher: every outcome's rest is a suffix of the input
and every captured group is a contiguous segment of the input. -/

theorem mre_spec : ∀ (fuel : Nat) (re : RE) (s : List Char) (pr : List Char × Option (List Char)),
    pr ∈ mre fuel re s → SufSeg pr.1 s ∧ ∀ g, pr.2 = some g → SubSeg g s := by
  intro fuel
  induction fuel with
  | zero => intro re s pr h; simp [mre] at h
  | succ f ih =>
      intro re s pr h
      cases re with
      | eps =>
          simp [mre] at h
          subst h
          exact ⟨sufSegRefl s, fun g hg => nomatch hg⟩
      | eol =>
          simp only [mre] at h
          split at h
          · simp at h
            subst h
            exact ⟨sufSegRefl s, fun g hg => nomatch hg⟩
          · simp at h
      | cls p =>
          cases s with
          | nil => simp [mre] at h
          | cons c t =>
              simp only [mre] at h
              split at h
              · simp at h
                subst h
                exact ⟨sufSegTail, fun g hg => nomatch hg⟩
              · simp at h
      | seq a b =>
          simp only [mre, List.mem_flatMap, List.mem_map] at h
          obtain ⟨x, hx, y, hy, hxy⟩ := h
          obtain ⟨hx1, hx2⟩ := ih a s x hx
          obtain ⟨hy1, hy2⟩ := ih b x.1 y hy
          constructor
          · rw [← hxy]; exact sufSegTrans hy1 hx1
          · intro g hg
            rw [← hxy] at hg
            simp only at hg
            cases hxv : x.2 with
            | some gx =>
                rw [hxv] at hg
                simp [Option.orElse] at hg
                rw [← hg]
                exact hx2 gx hxv
            | none =>
                rw [hxv] at hg
                simp [Option.orElse] at hg
                exact subSegTransSuf (hy2 g hg) hx1
      | alt a b =>
          simp only [mre, List.mem_append] at h
          rcases h with h | h
          · exact ih a s pr h
          · exact ih b s pr h
      | grp r =>
          simp only [mre, List.mem_map] at h
          obtain ⟨x, hx, hxe⟩ := h
          obtain ⟨hx1, _⟩ := ih r s x hx
          constructor
          · rw [← hxe]; exact hx1
          · intro g hg
            rw [← hxe] at hg
            simp only at hg
            injection hg with hg
            rw [← hg]
            exact subSegOfTake s (s.length - x.1.length)
      | star lz r =>
          simp only [mre] at h
          have hbase : pr = (s, none) →
              SufSeg pr.1 s ∧ ∀ g, pr.2 = some g → SubSeg g s := by
            intro he
            subst he
            exact ⟨sufSegRefl s, fun g hg => nomatch hg⟩
          have hstep : pr ∈ ((mre f r s).filter fun x => x.1.length < s.length).flatMap
              (fun x => (mre f (RE.star lz r) x.1).map fun y => (y.1, x.2.orElse fun _ => y.2)) →
              SufSeg pr.1 s ∧ ∀ g, pr.2 = some g → SubSeg g s := by
            intro hm
            simp only [List.mem_flatMap, List.mem_map] at hm
            obtain ⟨x, hx, y, hy, hxy⟩ := hm
            have hx0 : x ∈ mre f r s := List.mem_of_mem_filter hx
            obtain ⟨hx1, hx2⟩ := ih r s x hx0
            obtain ⟨hy1, hy2⟩ := ih (RE.star lz r) x.1 y hy
            constructor
            · rw [← hxy]; exact sufSegTrans hy1 hx1
            · intro g hg
              rw [← hxy] at hg
              simp only at hg
              cases hxv : x.2 with
              | some gx =>
                  rw [hxv] at hg
                  simp [Option.orElse] at hg
                  rw [← hg]
                  exact hx2 gx hxv
              | none =>
                  rw [hxv] at hg
                  simp [Option.orElse] at hg
                  exact subSegTransSuf (hy2 g hg) hx1
          split at h
          · rcases List.mem_cons.mp h with h1 | h1
            · exact hbase h1
            · exact hstep h1
          · rcases List.mem_append.mp h with h1 | h1
            · exact hstep h1
            · exact hbase (by simpa using h1)

/-- The group returned by `re.search` is a contiguous segment of the input. -/
theorem research_subseg {p : RE} : ∀ {s g : List Char}, research p s = some g → SubSeg g s := by
  intro s
  induction s with
  | nil =>
      intro g h
      rw [research] at h
      cases hm : mfirst p [] with
      | some x =>
          rw [hm] at h
          injection h with h
          cases hx2 : x.2 with
          | some g2 =>
              have hmem := headq_mem hm
              have := (mre_spec _ p [] x hmem).2 g2 hx2
              rw [← h, hx2]
              simpa using this
          | none => rw [← h, hx2]; exact subSegNil []
      | none => rw [hm] at h; cases h
  | cons c t ih =>
      intro g h
      rw [research] at h
      cases hm : mfirst p (c :: t) with
      | some x =>
          rw [hm] at h
          injection h with h
          cases hx2 : x.2 with
          | some g2 =>
              have hmem := headq_mem hm
              have := (mre_spec _ p (c :: t) x hmem).2 g2 hx2
              rw [← h, hx2]
              simpa using this
          | none => rw [← h, hx2]; exact subSegNil (c :: t)
      | none =>
          rw [hm] at h
          exact subSegConsHead (ih h)

/-! Facts about `dropWhile` and `pyStrip`. -/

theorem dwHead {p : Char → Bool} : ∀ (l : List Char) (c : Char),
    (l.dropWhile p).head? = some c → p c = false := by
  intro l
  induction l with
  | nil => intro c hc; simp [List.dropWhile] at hc
  | cons a t ih =>
      intro c hc
      cases hpa : p a with
      | true => rw [List.dropWhile_cons_of_pos hpa] at hc; exact ih c hc
      | false =>
          rw [List.dropWhile_cons_of_neg (by simp [hpa])] at hc
          simp at hc
          rw [← hc]
          exact hpa

theorem dwSelf {p : Char → Bool} (l : List Char)
    (h : ∀ c, l.head? = some c → p c = false) : l.dropWhile p = l := by
  cases l with
  | nil => rfl
  | cons a t => rw [List.dropWhile_cons_of_neg (by simp [h a rfl])]

theorem dwSuf {p : Char → Bool} (l : List Char) : SufSeg (l.dropWhile p) l :=
  ⟨l.takeWhile p, (List.takeWhile_append_dropWhile p l).symm⟩

theorem preHead {b v a : List Char} (hb : b ≠ []) (h : b ++ v = a) :
    a.head? = b.head? := by
  cases b with
  | nil => exact absurd rfl hb
  | cons x t => rw [← h]; simp

/-- Decomposition used by the `pyStrip` lemmas: the stripped string is a
prefix of the leading-whitespace-dropped string. -/
theorem pyStrip_decomp (s : List Char) :
    pyStrip s ++ ((s.dropWhile pyIsSpace).reverse.takeWhile pyIsSpace).reverse
      = s.dropWhile pyIsSpace := by
  have h := List.takeWhile_append_dropWhile (p := pyIsSpace)
      (l := (s.dropWhile pyIsSpace).reverse)
  have h2 := congrArg List.reverse h
  rw [List.reverse_append, List.reverse_reverse] at h2
  exact h2

theorem pyStrip_subseg (s : List Char) : SubSeg (pyStrip s) s := by
  have h1 : SubSeg (pyStrip s) (s.dropWhile pyIsSpace) :=
    ⟨[], ((s.dropWhile pyIsSpace).reverse.takeWhile pyIsSpace).reverse, by
      simp only [List.nil_append]
      exact (pyStrip_decomp s).symm⟩
  exact subSegTransSuf h1 (dwSuf s)

theorem pyStrip_head {s : List Char} {c : Char} {r : List Char}
    (h : pyStrip s = c :: r) : pyIsSpace c = false := by
  have hd := preHead (b := pyStrip s)
      (v := ((s.dropWhile pyIsSpace).reverse.takeWhile pyIsSpace).reverse)
      (a := s.dropWhile pyIsSpace) (by rw [h]; simp) (pyStrip_decomp s)
  rw [h] at hd
  simp at hd
  exact dwHead s c hd

theorem pyStrip_idem (s : List Char) : pyStrip (pyStrip s) = pyStrip s := by
  have h1 : (pyStrip s).dropWhile pyIsSpace = pyStrip s := by
    apply dwSelf
    intro c hc
    cases hx : pyStrip s with
    | nil => rw [hx] at hc; simp at hc
    | cons d ys =>
        rw [hx] at hc
        simp at hc
        rw [hc] at hx
        exact pyStrip_head hx
  have h2 : (pyStrip s).reverse.dropWhile pyIsSpace = (pyStrip s).reverse := by
    apply dwSelf
    intro c hc
    show pyIsSpace c = false
    have : (pyStrip s).reverse = (s.dropWhile pyIsSpace).reverse.dropWhile pyIsSpace := by
      rw [pyStrip, List.reverse_reverse]
    rw [this] at hc
    exact dwHead _ c hc
  show (((pyStrip s).dropWhile pyIsSpace).reverse.dropWhile pyIsSpace).reverse = pyStrip s
  rw [h1, h2, List.reverse_reverse]

/-! What a returned reference number must satisfy (lines 223-260). -/

theorem refOf_spec {lt cs : List Char} (h : refOf lt = some cs) :
    SubSeg cs lt ∧ pyStrip cs = cs ∧ refIsDateTime cs = false ∧
      parse_simple_amount cs = none := by
  obtain ⟨p, hp, hc⟩ := firstSome_eq_some h
  cases hr : research p lt with
  | none => rw [refCandidate, hr] at hc; cases hc
  | some g =>
      rw [refCandidate, hr] at hc
      simp only at hc
      cases hdt : refIsDateTime (pyStrip g) with
      | true => rw [if_pos (by rw [hdt])] at hc; cases hc
      | false =>
          rw [if_neg (by rw [hdt]; exact Bool.false_ne_true)] at hc
          cases hsa : parse_simple_amount (pyStrip g) with
          | some v => rw [if_pos (by rw [hsa]; rfl)] at hc; cases hc
          | none =>
              rw [if_neg (by rw [hsa]; simp)] at hc
              injection hc with hc
              rw [← hc]
              exact ⟨subSegTrans (pyStrip_subseg g) (research_subseg hr),
                     pyStrip_idem g, hdt, hsa⟩

/-! The acceptance threshold of both amount tiers (lines 105 and 125). -/

theorem kwCandidate_spec {lt : List Char} {p : RE} {a : PyNum}
    (h : kwCandidate lt p = some a) : pyNumLt (PyNum.mk 99 2) a = true := by
  rw [kwCandidate] at h
  cases hr : research p lt with
  | none => rw [hr] at h; exact Option.noConfusion h
  | some g =>
      rw [hr] at h
      have h2 : (match floatParse (kwNumNormalize g) with
                 | some v => if pyNumLt (PyNum.mk 99 2) v then some v else none
                 | none => none) = some a := h
      cases hf : floatParse (kwNumNormalize g) with
      | none => rw [hf] at h2; exact Option.noConfusion h2
      | some v =>
          rw [hf] at h2
          have h3 : (if pyNumLt (PyNum.mk 99 2) v then some v else none) = some a := h2
          split at h3
          · injection h3 with h3; rw [← h3]; assumption
          · exact Option.noConfusion h3

theorem fbCandidate_spec {lt : List Char} {p : RE} {a : PyNum}
    (h : fbCandidate lt p = some a) : pyNumLt (PyNum.mk 99 2) a = true := by
  rw [fbCandidate] at h
  cases hr : research p lt with
  | none => rw [hr] at h; exact Option.noConfusion h
  | some g =>
      rw [hr] at h
      have h2 : (match floatParse (g.filter fun c => c ≠ ',') with
                 | some v => if pyNumLt (PyNum.mk 99 2) v then some v else none
                 | none => none) = some a := h
      cases hf : floatParse (g.filter fun c => c ≠ ',') with
      | none => rw [hf] at h2; exact Option.noConfusion h2
      | some v =>
          rw [hf] at h2
          have h3 : (if pyNumLt (PyNum.mk 99 2) v then some v else none) = some a := h2
          split at h3
          · injection h3 with h3; rw [← h3]; assumption
          · exact Option.noConfusion h3

theorem amountOf_spec {lt : List Char} {a : PyNum} (h : amountOf lt = some a) :
    pyNumLt (PyNum.mk 99 2) a = true := by
  rw [amountOf] at h
  cases hk : keywordAmount lt with
  | some v =>
      rw [hk] at h
      injection h with h
      obtain ⟨p, _, hc⟩ := firstSome_eq_some hk
      rw [← h]
      exact kwCandidate_spec hc
  | none =>
      rw [hk] at h
      obtain ⟨p, _, hc⟩ := firstSome_eq_some h
      exact fbCandidate_spec hc

/-! Behaviour of the bare `(\d+)` fallback pattern (line 117): on any input
containing a digit it captures exactly the first maximal digit run. -/

theorem headCons {α : Type} {l : List α} {a : α} (h : l.head? = some a) :
    ∃ r, l = a :: r := by
  cases l with
  | nil => simp at h
  | cons x t => simp at h; exact ⟨t, by rw [h]⟩

theorem takePre : ∀ (u v : List Char), (u ++ v).take u.length = u := by
  intro u
  induction u with
  | nil => intro v; simp
  | cons a t ih => intro v; simp [ih]

theorem takeWhile_take (s : List Char) :
    s.take (s.length - (s.dropWhile pyIsDigit).length) = s.takeWhile pyIsDigit := by
  obtain ⟨tw, dw, htw, hdw, happ⟩ :
      ∃ tw dw, tw = s.takeWhile pyIsDigit ∧ dw = s.dropWhile pyIsDigit ∧ tw ++ dw = s :=
    ⟨_, _, rfl, rfl, List.takeWhile_append_dropWhile _ _⟩
  rw [← htw, ← hdw, ← happ]
  simp [List.length_append]

theorem starDigit_head : ∀ (f : Nat) (t : List Char), t.length + 2 ≤ f →
    (mre f (RE.star false clsDigit) t).head? = some (t.dropWhile pyIsDigit, none) := by
  intro f
  induction f with
  | zero => intro t ht; omega
  | succ f ih =>
      intro t ht
      cases t with
      | nil =>
          cases f with
          | zero => simp at ht
          | succ f2 => simp [mre, clsDigit]
      | cons c t2 =>
          cases f with
          | zero => simp at ht
          | succ f2 =>
              cases hd : pyIsDigit c with
              | false =>
                  rw [List.dropWhile_cons_of_neg (by simp [hd])]
                  simp [mre, clsDigit, hd]
              | true =>
                  have ih3 : (mre (f2 + 1) (RE.star false clsDigit) t2).head?
                      = some (t2.dropWhile pyIsDigit, none) :=
                    ih t2 (by simp at ht; omega)
                  obtain ⟨l, hl⟩ := headCons ih3
                  rw [List.dropWhile_cons_of_pos hd]
                  show ((((mre (f2 + 1) clsDigit (c :: t2)).filter
                      fun x : List Char × Option (List Char) =>
                        x.1.length < (c :: t2).length).flatMap
                      fun x : List Char × Option (List Char) =>
                        (mre (f2 + 1) (RE.star false clsDigit) x.1).map
                          fun y : List Char × Option (List Char) =>
                            (y.1, x.2.orElse fun _ => y.2))
                      ++ [(c :: t2, none)]).head? = some (t2.dropWhile pyIsDigit, none)
                  have hcls : mre (f2 + 1) clsDigit (c :: t2) = [(t2, none)] := by
                    simp [mre, clsDigit, hd]
                  rw [hcls]
                  have hfil : (([(t2, none)] : List (List Char × Option (List Char))).filter
                      fun x : List Char × Option (List Char) =>
                        x.1.length < (c :: t2).length) = [(t2, none)] := by
                    simp
                  rw [hfil]
                  simp only [List.flatMap_cons, List.flatMap_nil, List.append_nil]
                  rw [hl]
                  simp [Option.orElse]

theorem fbPat4_mre_head (F : Nat) (c : Char) (t : List Char)
    (hd : pyIsDigit c = true) (hF : (c :: t).length + 4 ≤ F) :
    (mre F fbPat4 (c :: t)).head? =
      some ((c :: t).dropWhile pyIsDigit, some ((c :: t).takeWhile pyIsDigit)) := by
  rcases F with _ | F1
  · simp only [List.length_cons] at hF; omega
  rcases F1 with _ | F2
  · simp only [List.length_cons] at hF; omega
  rcases F2 with _ | F3
  · simp only [List.length_cons] at hF; omega
  have hstar : (mre (F3 + 1) (RE.star false clsDigit) t).head?
      = some (t.dropWhile pyIsDigit, none) :=
    starDigit_head (F3 + 1) t (by simp only [List.length_cons] at hF; omega)
  obtain ⟨l, hl⟩ := headCons hstar
  show ((mre (F3 + 1 + 1) (rePlus clsDigit) (c :: t)).map
      fun x : List Char × Option (List Char) =>
        (x.1, some ((c :: t).take ((c :: t).length - x.1.length)))).head? = _
  have hplus : mre (F3 + 1 + 1) (rePlus clsDigit) (c :: t)
      = ((t.dropWhile pyIsDigit, none) :: l).map
          fun y : List Char × Option (List Char) =>
            (y.1, (none : Option (List Char)).orElse fun _ => y.2) := by
    show ((mre (F3 + 1) clsDigit (c :: t)).flatMap
        fun x : List Char × Option (List Char) =>
          (mre (F3 + 1) (RE.star false clsDigit) x.1).map
            fun y : List Char × Option (List Char) =>
              (y.1, x.2.orElse fun _ => y.2)) = _
    rw [show mre (F3 + 1) clsDigit (c :: t) = [(t, none)] from by simp [mre, clsDigit, hd]]
    simp only [List.flatMap_cons, List.flatMap_nil, List.append_nil]
    rw [hl]
  rw [hplus]
  simp only [List.map_map, List.map_cons, List.head?_cons, Function.comp]
  have htw := takeWhile_take (c :: t)
  rw [List.dropWhile_cons_of_pos hd] at htw
  simp only [List.length_cons] at htw
  simp [Option.orElse, List.dropWhile_cons_of_pos hd, htw]

theorem fbPat4_mre_nil (F : Nat) (c : Char) (t : List Char) (hd : pyIsDigit c = false) :
    mre F fbPat4 (c :: t) = [] := by
  rcases F with _ | F1
  · rfl
  rcases F1 with _ | F2
  · simp [mre, fbPat4]
  rcases F2 with _ | F3
  · simp [mre, fbPat4, rePlus]
  · simp [mre, fbPat4, rePlus, clsDigit, hd]

theorem research_fbPat4 : ∀ (s : List Char), s.any pyIsDigit = true →
    research fbPat4 s = some (firstDigitRun s) := by
  intro s
  induction s with
  | nil => intro h; simp at h
  | cons c t ih =>
      intro h
      cases hd : pyIsDigit c with
      | true =>
          rw [research]
          have hfuel : (c :: t).length + 4 ≤ fuelFor fbPat4 (c :: t) := by
            show (c :: t).length + 4 ≤ (reDepth fbPat4 + 1) * ((c :: t).length + 2)
            rw [show reDepth fbPat4 = 5 from rfl]
            simp
            omega
          rw [show mfirst fbPat4 (c :: t)
              = some ((c :: t).dropWhile pyIsDigit, some ((c :: t).takeWhile pyIsDigit)) from by
            rw [mfirst]; exact fbPat4_mre_head _ c t hd hfuel]
          show some (((c :: t).takeWhile pyIsDigit)) = some (firstDigitRun (c :: t))
          rw [show firstDigitRun (c :: t) = (c :: t).takeWhile pyIsDigit from by
            rw [firstDigitRun, List.dropWhile_cons_of_neg (by simp [hd])]]
      | false =>
          rw [research]
          rw [show mfirst fbPat4 (c :: t) = none from by
            rw [mfirst, fbPat4_mre_nil _ c t hd]; rfl]
          show research fbPat4 t = some (firstDigitRun (c :: t))
          have h2 : t.any pyIsDigit = true := by
            rw [List.any_cons, hd] at h
            simpa using h
          rw [show firstDigitRun (c :: t) = firstDigitRun t from by
            rw [firstDigitRun, firstDigitRun, List.dropWhile_cons_of_pos (by simp [hd])]]
          exact ih h2

theorem allTakeWhile {p : Char → Bool} : ∀ (l : List Char), (l.takeWhile p).all p = true := by
  intro l
  induction l with
  | nil => rfl
  | cons a t ih =>
      cases hp : p a with
      | true => rw [List.takeWhile_cons_of_pos hp, List.all_cons, hp, ih]; rfl
      | false => rw [List.takeWhile_cons_of_neg (by simp [hp])]; rfl

theorem digitsFilterComma {l : List Char} (h : l.all pyIsDigit = true) :
    (l.filter fun c => c ≠ ',') = l := by
  rw [List.filter_eq_self]
  intro a ha
  have hdig := List.all_eq_true.mp h a ha
  simp only [decide_eq_true_eq]
  intro heq
  rw [heq] at hdig
  exact absurd hdig (by decide)

theorem digitsNoDot {l : List Char} (h : l.all pyIsDigit = true) :
    splitOnChar '.' l = [l] := by
  induction l with
  | nil => rfl
  | cons a t ih =>
      rw [List.all_cons] at h
      obtain ⟨ha, ht⟩ := And.intro (Bool.and_elim_left h) (Bool.and_elim_right h)
      have hne : ¬ (a = '.') := by
        intro heq; rw [heq] at ha; exact absurd ha (by decide)
      rw [splitOnChar]
      simp only [if_neg hne, ih ht]

theorem floatParse_digits {l : List Char} (hne : l ≠ []) (h : l.all pyIsDigit = true) :
    floatParse l = some (PyNum.mk (digitsToNat l) 0) := by
  rw [floatParse, digitsNoDot h]
  show (if l ≠ [] && l.all pyIsDigit then some (PyNum.mk (digitsToNat l) 0) else none) = _
  rw [if_pos (by simp [hne, h])]

theorem fbCandidate_pat4 {s : List Char} (h1 : s.any pyIsDigit = true)
    (h2 : 1 ≤ digitsToNat (firstDigitRun s)) :
    fbCandidate s fbPat4 = some (PyNum.mk (digitsToNat (firstDigitRun s)) 0) := by
  rw [fbCandidate, research_fbPat4 s h1]
  have hrne : firstDigitRun s ≠ [] := by
    intro he; rw [he] at h2; simp [digitsToNat] at h2
  have hall : (firstDigitRun s).all pyIsDigit = true := allTakeWhile _
  show (match floatParse ((firstDigitRun s).filter fun c => c ≠ ',') with
        | some v => if pyNumLt (PyNum.mk 99 2) v then some v else none
        | none => none) = _
  rw [digitsFilterComma hall, floatParse_digits hrne hall]
  show (if pyNumLt (PyNum.mk 99 2) (PyNum.mk (digitsToNat (firstDigitRun s)) 0)
        then some (PyNum.mk (digitsToNat (firstDigitRun s)) 0) else none) = _
  rw [if_pos]
  show pyNumLt (PyNum.mk 99 2) (PyNum.mk (digitsToNat (firstDigitRun s)) 0) = true
  rw [pyNumLt]
  simp only [decide_eq_true_eq, pow_zero, mul_one]
  show 99 < digitsToNat (firstDigitRun s) * 10 ^ 2
  omega

/-! A match of either `parse_simple_amount` pattern forces the (stripped)
input to start with a digit, and both patterns' guards force positivity. -/

theorem hd_cls : ∀ (f : Nat) (s : List Char), mre f (RE.cls pyIsDigit) s ≠ [] →
    ∃ c t, s = c :: t ∧ pyIsDigit c = true := by
  intro f s h
  rcases f with _ | f2
  · exact absurd rfl h
  cases s with
  | nil => simp [mre] at h
  | cons c t =>
      cases hd : pyIsDigit c with
      | true => exact ⟨c, t, rfl, hd⟩
      | false => simp [mre, hd] at h

theorem hd_seq {A B : RE}
    (hA : ∀ (f : Nat) (s : List Char), mre f A s ≠ [] → ∃ c t, s = c :: t ∧ pyIsDigit c = true) :
    ∀ (f : Nat) (s : List Char), mre f (RE.seq A B) s ≠ [] →
      ∃ c t, s = c :: t ∧ pyIsDigit c = true := by
  intro f s h
  rcases f with _ | f2
  · exact absurd rfl h
  apply hA f2 s
  intro he
  apply h
  show ((mre f2 A s).flatMap fun x : List Char × Option (List Char) =>
      (mre f2 B x.1).map fun y : List Char × Option (List Char) =>
        (y.1, x.2.orElse fun _ => y.2)) = []
  rw [he]
  rfl

theorem hd_grp {A : RE}
    (hA : ∀ (f : Nat) (s : List Char), mre f A s ≠ [] → ∃ c t, s = c :: t ∧ pyIsDigit c = true) :
    ∀ (f : Nat) (s : List Char), mre f (RE.grp A) s ≠ [] →
      ∃ c t, s = c :: t ∧ pyIsDigit c = true := by
  intro f s h
  rcases f with _ | f2
  · exact absurd rfl h
  apply hA f2 s
  intro he
  apply h
  show ((mre f2 A s).map fun x : List Char × Option (List Char) =>
      (x.1, some (s.take (s.length - x.1.length)))) = []
  rw [he]
  rfl

theorem starWs_nonWs (f : Nat) (s : List Char)
    (h : ∀ c t, s = c :: t → pyIsSpace c = false) :
    mre (f + 1) (RE.star false clsWs) s = [(s, none)] := by
  have hcls : mre f clsWs s = [] := by
    rcases f with _ | f2
    · rfl
    cases s with
    | nil => simp [mre, clsWs]
    | cons c t => simp [mre, clsWs, h c t rfl]
  show (((mre f clsWs s).filter fun x : List Char × Option (List Char) =>
      x.1.length < s.length).flatMap fun x : List Char × Option (List Char) =>
        (mre f (RE.star false clsWs) x.1).map fun y : List Char × Option (List Char) =>
          (y.1, x.2.orElse fun _ => y.2)) ++ [(s, none)] = [(s, none)]
  rw [hcls]
  rfl

theorem spHead {B : RE}
    (hB : ∀ (f : Nat) (s : List Char), mre f B s ≠ [] → ∃ c t, s = c :: t ∧ pyIsDigit c = true)
    (f : Nat) (s : List Char)
    (hws : ∀ c t, s = c :: t → pyIsSpace c = false)
    (h : mre f (RE.seq (RE.star false clsWs) B) s ≠ []) :
    ∃ c t, s = c :: t ∧ pyIsDigit c = true := by
  rcases f with _ | f2
  · exact absurd rfl h
  rcases f2 with _ | f3
  · refine absurd ?_ h
    show ((mre 0 (RE.star false clsWs) s).flatMap fun x : List Char × Option (List Char) =>
        (mre 0 B x.1).map fun y : List Char × Option (List Char) =>
          (y.1, x.2.orElse fun _ => y.2)) = []
    rfl
  apply hB (f3 + 1) s
  intro he
  apply h
  show ((mre (f3 + 1) (RE.star false clsWs) s).flatMap
      fun x : List Char × Option (List Char) =>
        (mre (f3 + 1) B x.1).map fun y : List Char × Option (List Char) =>
          (y.1, x.2.orElse fun _ => y.2)) = []
  rw [starWs_nonWs f3 s hws]
  simp [he]

theorem manchored_ne {p : RE} {t g : List Char} (h : manchored p t = some g) :
    mre (fuelFor p t) p t ≠ [] := by
  intro he
  rw [manchored, mfirst, he] at h
  exact Option.noConfusion h

theorem spFallback_spec {t : List Char} {a : PyNum} (h : spFallback t = some a) :
    0 < a.mant ∧ ∃ g, manchored spRe2 t = some g := by
  rw [spFallback] at h
  cases hm : manchored spRe2 t with
  | none => rw [hm] at h; exact Option.noConfusion h
  | some g =>
      rw [hm] at h
      have h2 : (match floatParse g with
                 | some v => if 0 < v.mant then some v else none
                 | none => none) = some a := h
      cases hf : floatParse g with
      | none => rw [hf] at h2; exact Option.noConfusion h2
      | some v =>
          rw [hf] at h2
          have h3 : (if 0 < v.mant then some v else none) = some a := h2
          split at h3
          · injection h3 with h3; subst h3; exact ⟨by assumption, g, rfl⟩
          · exact Option.noConfusion h3

theorem parse_simple_spec {s : List Char} {a : PyNum} (h : parse_simple_amount s = some a) :
    0 < a.mant ∧ (∃ c r, pyStrip s = c :: r ∧ pyIsDigit c = true) ∧
      ((∃ g, manchored spRe1 (pyStrip s) = some g) ∨
       (∃ g, manchored spRe2 (pyStrip s) = some g)) := by
  have hws : ∀ c r, pyStrip s = c :: r → pyIsSpace c = false :=
    fun c r hcr => pyStrip_head hcr
  have hB1 : ∀ (f : Nat) (u : List Char),
      mre f (RE.seq (RE.grp decimalNumberShape)
        (RE.seq (RE.star false clsWs)
          (reAlts [reStr true "บาท", reStr true "baht", reStr true "thb", RE.eol]))) u ≠ [] →
      ∃ c t, u = c :: t ∧ pyIsDigit c = true :=
    hd_seq (hd_grp (hd_seq (hd_seq (hd_seq hd_cls))))
  have hB2 : ∀ (f : Nat) (u : List Char),
      mre f (RE.seq (RE.grp (RE.seq (rePlus clsDigit)
          (reOpt (RE.seq (reLit false '.') (rePlus clsDigit)))))
        (RE.seq (RE.star false clsWs) RE.eol)) u ≠ [] →
      ∃ c t, u = c :: t ∧ pyIsDigit c = true :=
    hd_seq (hd_grp (hd_seq (hd_seq hd_cls)))
  have h2 : (match manchored spRe1 (pyStrip s) with
             | some g =>
                 match floatParse (if 1 < (splitOnChar '.' (g.filter fun c => c ≠ ',')).length - 1
                     then fixMultiDot (g.filter fun c => c ≠ ',')
                     else g.filter fun c => c ≠ ',') with
                 | some v => if 0 < v.mant then some v else spFallback (pyStrip s)
                 | none => none
             | none => spFallback (pyStrip s)) = some a := h
  cases hm : manchored spRe1 (pyStrip s) with
  | none =>
      rw [hm] at h2
      have h3 : spFallback (pyStrip s) = some a := h2
      obtain ⟨hpos, g, hg⟩ := spFallback_spec h3
      have hne := manchored_ne hg
      exact ⟨hpos, spHead hB2 _ _ hws hne, Or.inr ⟨g, hg⟩⟩
  | some g =>
      rw [hm] at h2
      have hne := manchored_ne hm
      have hhead := spHead hB1 _ _ hws hne
      have h3 : (match floatParse (if 1 < (splitOnChar '.' (g.filter fun c => c ≠ ',')).length - 1
                     then fixMultiDot (g.filter fun c => c ≠ ',')
                     else g.filter fun c => c ≠ ',') with
                 | some v => if 0 < v.mant then some v else spFallback (pyStrip s)
                 | none => none) = some a := h2
      cases hf : floatParse (if 1 < (splitOnChar '.' (g.filter fun c => c ≠ ',')).length - 1
          then fixMultiDot (g.filter fun c => c ≠ ',')
          else g.filter fun c => c ≠ ',') with
      | none => rw [hf] at h3; exact Option.noConfusion h3
      | some v =>
          rw [hf] at h3
          have h4 : (if 0 < v.mant then some v else spFallback (pyStrip s)) = some a := h3
          split at h4
          · injection h4 with h4; subst h4; exact ⟨by assumption, hhead, Or.inl ⟨g, rfl⟩⟩
          · obtain ⟨hpos, _⟩ := spFallback_spec h4
            exact ⟨hpos, hhead, Or.inl ⟨g, rfl⟩⟩

/-- Unfolding lemma for `datetime_of` when no pattern/format combination
parses. -/
theorem datetime_of_none {now : PyDateTime} {text : List Char}
    (h : datetime_core text = none) : datetime_of now text = none := by
  show (match datetime_core text with
        | some dt =>
            if dt.year = 1900 && dt.month = 1 && dt.day = 1 then
              some (PyDateTime.mk now.year now.month now.day dt.hour dt.minute dt.second)
            else some dt
        | none => none) = none
  rw [h]

/-- Unfolding lemma for `datetime_of` when the parse is not time-only. -/
theorem datetime_of_some {now : PyDateTime} {text : List Char} {dt : PyDateTime}
    (h : datetime_core text = some dt)
    (h2 : (dt.year = 1900 && dt.month = 1 && dt.day = 1) = false) :
    datetime_of now text = some dt := by
  show (match datetime_core text with
        | some dt =>
            if dt.year = 1900 && dt.month = 1 && dt.day = 1 then
              some (PyDateTime.mk now.year now.month now.day dt.hour dt.minute dt.second)
            else some dt
        | none => none) = some dt
  rw [h]
  simp [h2]

/-! Claim theorems. -/

/-- C1 counterexample: on the 14-digit input the code returns no reference
number at all, because the candidate is rejected as an amount. -/
theorem claim_C1_counterexample :
    (parse_slip_text sampleNow "12345678901234").reference_no ≠ some "12345678901234" := by
  decide

/-- C1 (amended): `parse_slip_text "12345678901234"` returns a null
`reference_no`: the 14-digit run does match the long-bare-digit-run pattern,
but the candidate is then discarded because `parse_simple_amount` parses the
bare digit run as a positive amount (and the same happens for the
alphanumeric fallback pattern), so no reference number survives. -/
theorem claim_C1_amended : ∀ now : PyDateTime,
    (parse_slip_text now "12345678901234").reference_no = none ∧
    parse_simple_amount ("12345678901234".data) = some (PyNum.mk 12345678901234 0) := by
  intro now
  constructor
  · show ((refOf ("12345678901234".data.map pyLowerChar)).map fun r => String.mk r) = none
    decide
  · decide

/-- C2: whenever `parse_slip_text` returns a reference number, that string
fails the full date/time template check (slash-to-dash normalization and
Buddhist-era conversion included) and `parse_simple_amount` returns `None`
on it, so the same substring is never also accepted as a date/time or an
amount. -/
theorem claim_C2 : ∀ (t : String) (now : PyDateTime) (r : String),
    (parse_slip_text now t).reference_no = some r →
    refIsDateTime r.data = false ∧ parse_simple_amount r.data = none := by
  intro t now r h
  have h2 : ((refOf (t.data.map pyLowerChar)).map fun cs => String.mk cs) = some r := h
  cases ho : refOf (t.data.map pyLowerChar) with
  | none => rw [ho] at h2; exact Option.noConfusion h2
  | some cs =>
      rw [ho] at h2
      injection h2 with h2
      obtain ⟨_, _, hdt, hsa⟩ := refOf_spec ho
      rw [← h2]
      exact ⟨hdt, hsa⟩

theorem claim_C2_witness :
    refIsDateTime ("abcdefgh12x".data) = false ∧
    parse_simple_amount ("abcdefgh12x".data) = none :=
  claim_C2 "REF ABCDEFGH12X" sampleNow "abcdefgh12x" (by decide)

/-- C3: for every input string, including the empty string, `parse_slip_text`
returns a record of the three independently-nullable fields (the embedding is
a total function: every unparseable candidate is `none` and the next
candidate is tried), and on the empty string all three fields are null. -/
theorem claim_C3 :
    (∀ (now : PyDateTime) (t : String), ∃ a d r, parse_slip_text now t = ParsedSlip.mk a d r) ∧
    ∀ now : PyDateTime, parse_slip_text now "" = ParsedSlip.mk none none none := by
  constructor
  · intro now t
    exact ⟨(parse_slip_text now t).amount, (parse_slip_text now t).date_time,
           (parse_slip_text now t).reference_no, rfl⟩
  · intro now
    show ParsedSlip.mk (amountOf ("".data.map pyLowerChar)) (datetime_of now "".data)
        ((refOf ("".data.map pyLowerChar)).map fun r => String.mk r)
        = ParsedSlip.mk none none none
    rw [show amountOf ("".data.map pyLowerChar) = none from by decide]
    rw [show (refOf ("".data.map pyLowerChar)).map (fun r => String.mk r) = none from by decide]
    rw [datetime_of_none (by decide)]

/-- C4 counterexample: `parse_slip_text` is not a pure function of the text
alone; on the time-only input "14:05" two runs under different clock dates
give different `date_time` values. -/
theorem claim_C4_counterexample :
    parse_slip_text sampleNow "14:05" ≠ parse_slip_text sampleNowB "14:05" := by
  decide

/-- C4 (amended): `parse_slip_text` is a pure function of its text and the
current Bangkok clock: `amount` and `reference_no` depend only on the text,
while `date_time` may additionally depend on the current date (it does so
exactly on time-only inputs, via the 1900-01-01 substitution). -/
theorem claim_C4_amended : ∀ (t : String) (n1 n2 : PyDateTime),
    (parse_slip_text n1 t).amount = (parse_slip_text n2 t).amount ∧
    (parse_slip_text n1 t).reference_no = (parse_slip_text n2 t).reference_no :=
  fun _ _ _ => ⟨rfl, rfl⟩

/-- C5: `parse_slip_text "07/08/2568 14:30"` yields the naive datetime
2025-08-07T14:30:00 — the 4-digit year 2568 exceeds 2500 so 543 is
subtracted before the format parse. -/
theorem claim_C5 : ∀ now : PyDateTime,
    (parse_slip_text now "07/08/2568 14:30").date_time
      = some (PyDateTime.mk 2025 8 7 14 30 0) := by
  intro now
  show datetime_of now ("07/08/2568 14:30".data) = some (PyDateTime.mk 2025 8 7 14 30 0)
  exact datetime_of_some (by decide) (by decide)

/-- C6 counterexample: the keyword-anchored candidate "1.000.00" yields the
amount 100000, not 1000.00. -/
theorem claim_C6_counterexample :
    (parse_slip_text sampleNow "total 1.000.00").amount = some (PyNum.mk 100000 0) ∧
    (parse_slip_text sampleNow "total 1.000.00").amount ≠ some (PyNum.mk 1000 0) := by
  decide

/-- C6 (amended): in the keyword-anchored tier, when the comma-stripped
candidate still contains more than one dot, the code removes every dot
(treating all of them, the last one included, as grouping separators), so a
matched candidate "1.000.00" yields the amount 100000 rather than 1000.00. -/
theorem claim_C6_amended :
    (∀ g : List Char,
        1 < (((g.filter fun c => c ≠ ',').filter fun c => c = '.')).length →
        kwNumNormalize g = (g.filter fun c => c ≠ ',').filter fun c => c ≠ '.') ∧
    ∀ now : PyDateTime,
      (parse_slip_text now "total 1.000.00").amount = some (PyNum.mk 100000 0) := by
  constructor
  · intro g hg
    show (if 1 < (((g.filter fun c => c ≠ ',').filter fun c => c = '.')).length
          then (g.filter fun c => c ≠ ',').filter fun c => c ≠ '.'
          else g.filter fun c => c ≠ ',') = (g.filter fun c => c ≠ ',').filter fun c => c ≠ '.'
    rw [if_pos hg]
  · intro now
    show amountOf ("total 1.000.00".data.map pyLowerChar) = some (PyNum.mk 100000 0)
    decide

theorem claim_C6_witness :
    kwNumNormalize ("1.000.00".data)
      = ((("1.000.00".data.filter fun c => c ≠ ',')).filter fun c => c ≠ '.') :=
  claim_C6_amended.1 ("1.000.00".data) (by decide)

/-- C7 counterexample: the reference number is matched on the lower-cased
text, so the original casing is not preserved. -/
theorem claim_C7_counterexample :
    (parse_slip_text sampleNow "REF ABCDEFGH12X").reference_no = some "abcdefgh12x" ∧
    "abcdefgh12x" ≠ "ABCDEFGH12X" := by
  decide

/-- C7 (amended): every returned reference number is a contiguous segment of
the lower-cased input (uppercase letters are folded; spacing inside the match
is preserved), trimmed of surrounding whitespace (stripping it again changes
nothing). -/
theorem claim_C7_amended : ∀ (t : String) (now : PyDateTime) (r : String),
    (parse_slip_text now t).reference_no = some r →
    SubSeg r.data (t.data.map pyLowerChar) ∧ pyStrip r.data = r.data := by
  intro t now r h
  have h2 : ((refOf (t.data.map pyLowerChar)).map fun cs => String.mk cs) = some r := h
  cases ho : refOf (t.data.map pyLowerChar) with
  | none => rw [ho] at h2; exact Option.noConfusion h2
  | some cs =>
      rw [ho] at h2
      injection h2 with h2
      obtain ⟨hsub, hstr, _, _⟩ := refOf_spec ho
      rw [← h2]
      exact ⟨hsub, hstr⟩

theorem claim_C7_witness :
    SubSeg ("abcdefgh12x".data) ("REF ABCDEFGH12X".data.map pyLowerChar) ∧
    pyStrip ("abcdefgh12x".data) = ("abcdefgh12x".data) :=
  claim_C7_amended "REF ABCDEFGH12X" sampleNow "abcdefgh12x" (by decide)

/-- C8: whenever `parse_slip_text` returns a non-null amount, that amount
exceeds 0.99; candidates at or below the threshold are discarded (reset to
`None`) and the next pattern in priority order is tried. -/
theorem claim_C8 : ∀ (t : String) (now : PyDateTime) (a : PyNum),
    (parse_slip_text now t).amount = some a → pyNumLt (PyNum.mk 99 2) a = true := by
  intro t now a h
  have h2 : amountOf (t.data.map pyLowerChar) = some a := h
  exact amountOf_spec h2

theorem claim_C8_witness : pyNumLt (PyNum.mk 99 2) (PyNum.mk 5 0) = true :=
  claim_C8 "total 5.00" sampleNow (PyNum.mk 5 0) (by decide)

/-- C9 counterexample: `parse_simple_amount` accepts "100 baht x" (returning
100) even though the entire trimmed input is not a single numeral followed
only by a currency marker or end-of-string — text after the marker is not
rejected. -/
theorem claim_C9_counterexample :
    parse_simple_amount ("100 baht x".data) = some (PyNum.mk 100 0) := by
  decide

/-- C9 (amended): `parse_simple_amount` returns a value only when it is
strictly positive, the trimmed input begins with a digit, and the trimmed
input matches one of the two source patterns anchored at its start: a
decimal-shaped numeral followed, after optional whitespace, by a currency
marker or end-of-string (`spRe1` — text after the currency marker is
allowed), or, as fallback, a bare integer-or-decimal occupying the whole
trimmed input (`spRe2`); in every other case it returns `None`. -/
theorem claim_C9_amended : ∀ (s : List Char) (a : PyNum),
    parse_simple_amount s = some a →
    0 < a.mant ∧ (∃ c r, pyStrip s = c :: r ∧ pyIsDigit c = true) ∧
      ((∃ g, manchored spRe1 (pyStrip s) = some g) ∨
       (∃ g, manchored spRe2 (pyStrip s) = some g)) :=
  fun _ _ h => parse_simple_spec h

theorem claim_C9_witness :
    0 < (PyNum.mk 100 0).mant ∧
    (∃ c r, pyStrip ("100 baht x".data) = c :: r ∧ pyIsDigit c = true) ∧
      ((∃ g, manchored spRe1 (pyStrip ("100 baht x".data)) = some g) ∨
       (∃ g, manchored spRe2 (pyStrip ("100 baht x".data)) = some g)) :=
  claim_C9_amended ("100 baht x".data) (PyNum.mk 100 0) (by decide)

/-- C10: for every input whose lower-cased text contains a digit and whose
first maximal digit run has value at least 1, `parse_slip_text` returns a
non-null amount — the fallback tier's bare-integer pattern accepts the first
digit run, so virtually every digit-bearing input produces an amount. -/
theorem claim_C10 : ∀ (t : String) (now : PyDateTime),
    (t.data.map pyLowerChar).any pyIsDigit = true →
    1 ≤ digitsToNat (firstDigitRun (t.data.map pyLowerChar)) →
    ((parse_slip_text now t).amount).isSome = true := by
  intro t now h1 h2
  show (amountOf (t.data.map pyLowerChar)).isSome = true
  rw [amountOf]
  cases hk : keywordAmount (t.data.map pyLowerChar) with
  | some v => rfl
  | none =>
      show (fallbackAmount (t.data.map pyLowerChar)).isSome = true
      have hmem : fbPat4 ∈ amount_patterns := by
        show fbPat4 ∈ [fbPat1, fbPat2, fbPat3, fbPat4]
        exact List.mem_cons_of_mem _ (List.mem_cons_of_mem _
          (List.mem_cons_of_mem _ (List.mem_cons_self _ _)))
      show (firstSome amount_patterns (fbCandidate (t.data.map pyLowerChar))).isSome = true
      exact firstSome_isSome hmem (by rw [fbCandidate_pat4 h1 h2]; rfl)

theorem claim_C10_witness : ((parse_slip_text sampleNow "x12y").amount).isSome = true :=
  claim_C10 "x12y" sampleNow (by decide) (by decide)
